import Mathlib

/-!
Shallow embedding of the ViewCube orientation controller
(`src/lib/ViewCube.tsx`) and proofs about its angle model, rotation /
animation state machine, gesture handlers and public control surface.

Angles are modelled as rationals. JavaScript's `%` operator on numbers is
the truncating remainder (`n - m * trunc (n / m)`), embedded here as
`jsRem`; the source's `mod` helper (`((n % m) + m) % m`) is `jsMod`.
-/

namespace ViewCube

/-! ## Definitions -/

/-- Truncation toward zero of a rational, as JavaScript `Math.trunc` /
the implicit truncation in the `%` operator. -/
def ratTrunc (q : ℚ) : ℤ := if 0 ≤ q then ⌊q⌋ else ⌈q⌉

/-- JavaScript remainder `n % m`: `n - m * trunc (n / m)`. -/
def jsRem (n m : ℚ) : ℚ := n - m * (ratTrunc (n / m) : ℚ)

/-- The source's `mod` helper: `((n % m) + m) % m`. -/
def jsMod (n m : ℚ) : ℚ := jsRem (jsRem n m + m) m

/-- The source's `shortestSignedAngleDiff`:
`mod(target - current + 180, 360) - 180`. -/
def shortestSignedAngleDiff (current target : ℚ) : ℚ :=
  jsMod (target - current + 180) 360 - 180

/-- The source's `clampPitch`: `Math.max(-90, Math.min(90, x))`. -/
def clampPitch (x : ℚ) : ℚ := max (-90) (min 90 x)

/-- Mathematical always-non-negative modulo, used by the specification to
state congruence of angles: `x - m * ⌊x / m⌋`. -/
def mathMod (x m : ℚ) : ℚ := x - m * (⌊x / m⌋ : ℚ)

/-- A rotation `{ x, y }`: `x` is the pitch, `y` the yaw, in degrees. -/
structure Rotation where
  x : ℚ
  y : ℚ
deriving DecidableEq, Repr

/-- The six faces, as in `FACE_LABELS`. -/
inductive Face where
  | Front | Back | Left | Right | Top | Bottom
deriving DecidableEq, Repr

/-- The source's `FACE_TARGETS` table. -/
def FACE_TARGETS : Face → Rotation
  | .Front => ⟨0, -0⟩
  | .Back => ⟨0, -180⟩
  | .Left => ⟨0, 90⟩
  | .Right => ⟨0, -90⟩
  | .Top => ⟨-90, 0⟩
  | .Bottom => ⟨90, 0⟩

/-- The source's `FACE_CORNERS` table: four corner class identifiers per
face, in order top-left, top-right, bottom-right, bottom-left. -/
def FACE_CORNERS : Face → List String
  | .Front => ["lft", "frt", "frm", "lfm"]
  | .Back => ["brt", "blt", "blm", "brm"]
  | .Left => ["blt", "lft", "lfm", "blm"]
  | .Right => ["frt", "brt", "brm", "frm"]
  | .Top => ["blt", "brt", "frt", "lft"]
  | .Bottom => ["lfm", "frm", "brm", "blm"]

/-- The controller's state: the React refs and state hooks of the
component, plus an explicit model of the environment's timer queue
(`pendingTimers` holds ids of armed, not yet fired, not yet cancelled
timeouts; `nextTimerId` is a fresh-id counter) and the observable
callback histories (`changeCalls` for `onRotationChange`, `cornerCalls`
for `onCornerClick`, most recent first). -/
structure CubeState where
  rotation : Rotation
  initialRotation : Rotation
  isDragging : Bool
  dragButton : Option ℤ
  lastPos : ℚ × ℚ
  isAnimating : Bool
  cancelAnimationTimer : Option ℕ
  pendingTimers : List ℕ
  nextTimerId : ℕ
  changeCalls : List Rotation
  cornerCalls : List String
deriving DecidableEq, Repr

/-- Construction: `useState(initialRotation)` and the refs' initial
values. No normalization of the caller-supplied pose happens here. -/
def mkState (init : Rotation) : CubeState where
  rotation := init
  initialRotation := init
  isDragging := false
  dragButton := none
  lastPos := (0, 0)
  isAnimating := false
  cancelAnimationTimer := none
  pendingTimers := []
  nextTimerId := 0
  changeCalls := []
  cornerCalls := []

/-- The source's `setCubeRotation`: commit the rotation and fire the
change callback. -/
def setCubeRotation (r : Rotation) (s : CubeState) : CubeState :=
  { s with rotation := r, changeCalls := r :: s.changeCalls }

/-- The source's `animateTo`: clamp the pitch, take the shortest yaw
route, cancel any pending completion timer, set the animating flag,
commit the target rotation, and arm a fresh completion timer. -/
def animateTo (targetY targetX : ℚ) (s : CubeState) : CubeState :=
  let finalX := clampPitch targetX
  let cur := s.rotation
  let dy := shortestSignedAngleDiff cur.y targetY
  let newY := cur.y + dy
  let dx := finalX - cur.x
  let newX := clampPitch (cur.x + dx)
  let s1 :=
    match s.cancelAnimationTimer with
    | some id => { s with pendingTimers := s.pendingTimers.erase id,
                          cancelAnimationTimer := none }
    | none => s
  let s2 := { s1 with isAnimating := true }
  let s3 := setCubeRotation ⟨newX, newY⟩ s2
  { s3 with pendingTimers := s3.pendingTimers ++ [s3.nextTimerId],
            cancelAnimationTimer := some s3.nextTimerId,
            nextTimerId := s3.nextTimerId + 1 }

/-- The imperative handle's `setRotation(xDeg, yDeg)`. -/
def setRotationImp (xDeg yDeg : ℚ) (s : CubeState) : CubeState :=
  let cur := s.rotation
  let targetPitch := clampPitch xDeg
  let diffY := shortestSignedAngleDiff cur.y yDeg
  let finalY := cur.y + diffY
  animateTo finalY targetPitch s

/-- The imperative handle's `reset()`. -/
def resetImp (s : CubeState) : CubeState :=
  animateTo s.initialRotation.y s.initialRotation.x s

/-- The imperative handle's `getRotation()`. -/
def getRotation (s : CubeState) : Rotation := s.rotation

/-- The source's `handleFaceClick`. -/
def handleFaceClick (f : Face) (s : CubeState) : CubeState :=
  let base := FACE_TARGETS f
  let cur := s.rotation
  let dy := shortestSignedAngleDiff cur.y base.y
  let targetY := cur.y + dy
  let targetX := clampPitch base.x
  animateTo targetY targetX s

/-- The source's `handleContainerMouseDown` for a press of `button` at
client position `(cx, cy)`. -/
def handleContainerMouseDown (button : ℤ) (cx cy : ℚ) (s : CubeState) :
    CubeState :=
  let s1 := { s with dragButton := some button, lastPos := (cx, cy) }
  if button = 2 then { s1 with isDragging := true, isAnimating := false }
  else s1

/-- The source's `handleGlobalMouseMove` for a pointer at `(cx, cy)`. -/
def handleGlobalMouseMove (cx cy : ℚ) (s : CubeState) : CubeState :=
  if s.isDragging = true ∧ s.dragButton = some 2 then
    let dx := cx - s.lastPos.1
    let dy := cy - s.lastPos.2
    let s1 := { s with lastPos := (cx, cy) }
    setCubeRotation ⟨clampPitch (s1.rotation.x - dy * 0.5),
                     s1.rotation.y + dx * 0.5⟩ s1
  else s

/-- The source's `handleGlobalMouseUp`. -/
def handleGlobalMouseUp (s : CubeState) : CubeState :=
  { s with isDragging := false, dragButton := none }

/-- The source's `handleTouchStart` when exactly two contacts are down,
at positions `(x0, y0)` and `(x1, y1)`. -/
def handleTouchStartTwo (x0 y0 x1 y1 : ℚ) (s : CubeState) : CubeState :=
  let x := (x0 + x1) / 2
  let y := (y0 + y1) / 2
  { s with lastPos := (x, y), dragButton := some 2,
           isDragging := true, isAnimating := false }

/-- The source's `handleTouchStart` when the contact count is not two. -/
def handleTouchStartOther (s : CubeState) : CubeState :=
  { s with dragButton := some 0 }

/-- The source's `handleGlobalTouchMove` when exactly two contacts are
down, at positions `(x0, y0)` and `(x1, y1)`. -/
def handleGlobalTouchMove (x0 y0 x1 y1 : ℚ) (s : CubeState) : CubeState :=
  if s.isDragging = true ∧ s.dragButton = some 2 then
    let x := (x0 + x1) / 2
    let y := (y0 + y1) / 2
    let dx := x - s.lastPos.1
    let dy := y - s.lastPos.2
    let s1 := { s with lastPos := (x, y) }
    setCubeRotation ⟨clampPitch (s1.rotation.x - dy * 0.5),
                     s1.rotation.y + dx * 0.5⟩ s1
  else s

/-- The source's `handleGlobalTouchEnd`. -/
def handleGlobalTouchEnd (s : CubeState) : CubeState :=
  { s with isDragging := false, dragButton := none }

/-- A `setTimeout` callback armed by `animateTo` fires: only an armed,
uncancelled timer can fire, and its body clears the animating flag and
empties the timer ref. -/
def timerFire (id : ℕ) (s : CubeState) : CubeState :=
  if id ∈ s.pendingTimers then
    { s with pendingTimers := s.pendingTimers.erase id,
             isAnimating := false, cancelAnimationTimer := none }
  else s

/-- The corner `onClick` handler: report the corner identifier to the
observer. It also calls `stopPropagation`, modelled in
`dispatchCornerClick` below. -/
def cornerClickHandler (c : String) (s : CubeState) : CubeState :=
  { s with cornerCalls := c :: s.cornerCalls }

/-- DOM dispatch of a click on a corner pick region layered on face `f`:
the corner handler runs first and calls `stopPropagation`, so the
enclosing face's `onClick` (`handleFaceClick`) only runs if propagation
were allowed to continue — which it never is here. -/
def dispatchCornerClick (f : Face) (c : String) (s : CubeState) : CubeState :=
  let stopped := true
  let s1 := cornerClickHandler c s
  if stopped then s1 else handleFaceClick f s1

/-- The operations of the controller: the public control surface, the
gesture handlers and timer callbacks. -/
inductive Op where
  | setRotationOp (xDeg yDeg : ℚ)
  | resetOp
  | faceClickOp (f : Face)
  | mouseDownOp (button : ℤ) (cx cy : ℚ)
  | mouseMoveOp (cx cy : ℚ)
  | mouseUpOp
  | touchStartTwoOp (x0 y0 x1 y1 : ℚ)
  | touchStartOtherOp
  | touchMoveTwoOp (x0 y0 x1 y1 : ℚ)
  | touchEndOp
  | timerFireOp (id : ℕ)
  | cornerClickOp (f : Face) (c : String)
deriving DecidableEq, Repr

/-- One event-loop step. -/
def step (o : Op) (s : CubeState) : CubeState :=
  match o with
  | .setRotationOp xDeg yDeg => setRotationImp xDeg yDeg s
  | .resetOp => resetImp s
  | .faceClickOp f => handleFaceClick f s
  | .mouseDownOp b cx cy => handleContainerMouseDown b cx cy s
  | .mouseMoveOp cx cy => handleGlobalMouseMove cx cy s
  | .mouseUpOp => handleGlobalMouseUp s
  | .touchStartTwoOp x0 y0 x1 y1 => handleTouchStartTwo x0 y0 x1 y1 s
  | .touchStartOtherOp => handleTouchStartOther s
  | .touchMoveTwoOp x0 y0 x1 y1 => handleGlobalTouchMove x0 y0 x1 y1 s
  | .touchEndOp => handleGlobalTouchEnd s
  | .timerFireOp id => timerFire id s
  | .cornerClickOp f c => dispatchCornerClick f c s

/-- Running a sequence of operations. -/
def steps (ops : List Op) (s : CubeState) : CubeState :=
  ops.foldl (fun s o => step o s) s

/-- The committed pitch is within the clamp range. -/
def pitchOk (s : CubeState) : Prop :=
  -90 ≤ s.rotation.x ∧ s.rotation.x ≤ 90

/-- Whether an operation commits a rotation (calls `setCubeRotation`)
when run in state `s`: the animated transitions always do; a drag move
does exactly when a secondary-button/two-finger drag is active. -/
def commitsRotation (o : Op) (s : CubeState) : Prop :=
  match o with
  | .setRotationOp _ _ => True
  | .resetOp => True
  | .faceClickOp _ => True
  | .mouseMoveOp _ _ => s.isDragging = true ∧ s.dragButton = some 2
  | .touchMoveTwoOp _ _ _ _ => s.isDragging = true ∧ s.dragButton = some 2
  | _ => False

/-- Timer invariant: the set of armed, uncancelled completion timers is
exactly what the `cancelAnimationTimer` ref holds. -/
def TimerInv (s : CubeState) : Prop :=
  s.pendingTimers = s.cancelAnimationTimer.toList

/-- Fresh-id invariant for the timer model: an armed timer's id is below
the fresh-id counter. -/
def TimerFresh (s : CubeState) : Prop :=
  ∀ id, s.cancelAnimationTimer = some id → id < s.nextTimerId

/-- Drag-move operations (pointer move / two-finger move). -/
def isDragMoveOp : Op → Prop
  | .mouseMoveOp _ _ => True
  | .touchMoveTwoOp _ _ _ _ => True
  | _ => False

/-! ## Theorems -/

theorem jsRem_eq_sub_intCast (n : ℚ) :
    jsRem n 360 = n - 360 * (ratTrunc (n / 360) : ℚ) := rfl

theorem jsRem_bounds (n : ℚ) : -360 < jsRem n 360 ∧ jsRem n 360 < 360 := by
  unfold jsRem ratTrunc
  rcases le_or_lt 0 (n / 360) with h | h
  · rw [if_pos h]
    have h1 : (⌊n / 360⌋ : ℚ) ≤ n / 360 := Int.floor_le _
    have h2 : n / 360 < ⌊n / 360⌋ + 1 := Int.lt_floor_add_one _
    constructor <;> nlinarith [h1, h2]
  · rw [if_neg (not_le.mpr h)]
    have h1 : n / 360 ≤ (⌈n / 360⌉ : ℚ) := Int.le_ceil _
    have h2 : (⌈n / 360⌉ : ℚ) < n / 360 + 1 := Int.ceil_lt_add_one _
    constructor <;> nlinarith [h1, h2]

theorem jsRem_nonneg_of_nonneg (n : ℚ) (h : 0 ≤ n) : 0 ≤ jsRem n 360 := by
  unfold jsRem ratTrunc
  have hq : 0 ≤ n / 360 := by positivity
  rw [if_pos hq]
  have h1 : (⌊n / 360⌋ : ℚ) ≤ n / 360 := Int.floor_le _
  nlinarith [h1]

theorem jsMod_bounds (n : ℚ) : 0 ≤ jsMod n 360 ∧ jsMod n 360 < 360 := by
  unfold jsMod
  have hb := jsRem_bounds n
  have hpos : 0 ≤ jsRem n 360 + 360 := by linarith [hb.1]
  exact ⟨jsRem_nonneg_of_nonneg _ hpos, (jsRem_bounds _).2⟩

theorem jsRem_sub_int (n : ℚ) : ∃ k : ℤ, jsRem n 360 = n - 360 * (k : ℚ) :=
  ⟨ratTrunc (n / 360), rfl⟩

theorem jsMod_sub_int (n : ℚ) : ∃ k : ℤ, jsMod n 360 = n - 360 * (k : ℚ) := by
  unfold jsMod
  obtain ⟨k1, h1⟩ := jsRem_sub_int n
  obtain ⟨k2, h2⟩ := jsRem_sub_int (jsRem n 360 + 360)
  refine ⟨k1 - 1 + k2, ?_⟩
  rw [h2, h1]
  push_cast
  ring

theorem mathMod_bounds (n : ℚ) : 0 ≤ mathMod n 360 ∧ mathMod n 360 < 360 := by
  unfold mathMod
  have h1 : (⌊n / 360⌋ : ℚ) ≤ n / 360 := Int.floor_le _
  have h2 : n / 360 < ⌊n / 360⌋ + 1 := Int.lt_floor_add_one _
  constructor <;> nlinarith [h1, h2]

/-- Two residues in `[0, 360)` that differ by an integer multiple of 360
are equal. -/
theorem residue_unique (a b : ℚ) (k : ℤ) (ha0 : 0 ≤ a) (ha1 : a < 360)
    (hb0 : 0 ≤ b) (hb1 : b < 360) (h : a - b = 360 * (k : ℚ)) : a = b := by
  have hk0 : k = 0 := by
    rcases lt_trichotomy k 0 with hk | hk | hk
    · have : (k : ℚ) ≤ -1 := by exact_mod_cast (by omega : k ≤ -1)
      nlinarith
    · exact hk
    · have : (1 : ℚ) ≤ (k : ℚ) := by exact_mod_cast hk
      nlinarith
  rw [hk0] at h
  push_cast at h
  linarith

/-- The source's `mod` at modulus 360 agrees with mathematical modulo. -/
theorem jsMod_eq_mathMod (n : ℚ) : jsMod n 360 = mathMod n 360 := by
  obtain ⟨k, hk⟩ := jsMod_sub_int n
  have hj := jsMod_bounds n
  have hm := mathMod_bounds n
  refine residue_unique _ _ (⌊n / 360⌋ - k) hj.1 hj.2 hm.1 hm.2 ?_
  rw [hk]
  unfold mathMod
  push_cast
  ring

theorem mathMod_eq_of (n r : ℚ) (k : ℤ) (h0 : 0 ≤ r) (h1 : r < 360)
    (h : n - r = 360 * (k : ℚ)) : mathMod n 360 = r := by
  have hm := mathMod_bounds n
  refine residue_unique _ _ (k - ⌊n / 360⌋) hm.1 hm.2 h0 h1 ?_
  unfold mathMod
  push_cast
  linarith

theorem jsMod_eq_of (n r : ℚ) (k : ℤ) (h0 : 0 ≤ r) (h1 : r < 360)
    (h : n - r = 360 * (k : ℚ)) : jsMod n 360 = r := by
  rw [jsMod_eq_mathMod]
  exact mathMod_eq_of n r k h0 h1 h

theorem mathMod_sub_self (n : ℚ) : ∃ k : ℤ, n - mathMod n 360 = 360 * (k : ℚ) := by
  refine ⟨⌊n / 360⌋, ?_⟩
  unfold mathMod
  ring

/-- Congruence mod 360 is exactly equality of `mathMod`s. -/
theorem mathMod_eq_iff_sub_int (a b : ℚ) :
    mathMod a 360 = mathMod b 360 ↔ ∃ k : ℤ, a - b = 360 * (k : ℚ) := by
  constructor
  · intro h
    obtain ⟨k1, h1⟩ := mathMod_sub_self a
    obtain ⟨k2, h2⟩ := mathMod_sub_self b
    refine ⟨k1 - k2, ?_⟩
    push_cast
    nlinarith [h1, h2, h]
  · rintro ⟨k, hk⟩
    have hb := mathMod_bounds b
    obtain ⟨k2, h2⟩ := mathMod_sub_self b
    refine mathMod_eq_of a (mathMod b 360) (k + k2) hb.1 hb.2 ?_
    push_cast
    linarith

theorem shortestSignedAngleDiff_bounds (c t : ℚ) :
    -180 ≤ shortestSignedAngleDiff c t ∧ shortestSignedAngleDiff c t < 180 := by
  unfold shortestSignedAngleDiff
  have h := jsMod_bounds (t - c + 180)
  constructor <;> linarith [h.1, h.2]

theorem abs_shortestSignedAngleDiff_le (c t : ℚ) :
    |shortestSignedAngleDiff c t| ≤ 180 := by
  have h := shortestSignedAngleDiff_bounds c t
  rw [abs_le]
  constructor <;> linarith [h.1, h.2]

/-- Applying the delta lands on an angle congruent to the target mod 360. -/
theorem shortestSignedAngleDiff_congr (c t : ℚ) :
    mathMod (c + shortestSignedAngleDiff c t) 360 = mathMod t 360 := by
  rw [mathMod_eq_iff_sub_int]
  unfold shortestSignedAngleDiff
  obtain ⟨k, hk⟩ := jsMod_sub_int (t - c + 180)
  refine ⟨-k, ?_⟩
  rw [hk]
  push_cast
  ring

/-- For a delta already in `[-180, 180)`, the shortest route from `c` to
`c + d` is exactly `d`. -/
theorem shortestSignedAngleDiff_self_add (c d : ℚ) (h0 : -180 ≤ d)
    (h1 : d < 180) : shortestSignedAngleDiff c (c + d) = d := by
  unfold shortestSignedAngleDiff
  have : jsMod (c + d - c + 180) 360 = d + 180 := by
    refine jsMod_eq_of _ _ 0 (by linarith) (by linarith) (by push_cast; ring)
  have harg : c + d - c + 180 = c + d - c + 180 := rfl
  rw [show (c + d - c + 180 : ℚ) = d + 180 + (c - c) by ring] at this ⊢
  rw [show (d + 180 + (c - c) : ℚ) = d + 180 by ring] at this ⊢
  linarith [this]

/-- Antipodal targets: the tie at 180 degrees resolves to `-180`. -/
theorem shortestSignedAngleDiff_antipodal (c : ℚ) :
    shortestSignedAngleDiff c (c + 180) = -180 := by
  unfold shortestSignedAngleDiff
  have : jsMod (c + 180 - c + 180) 360 = 0 := by
    refine jsMod_eq_of _ _ 1 (by norm_num) (by norm_num) (by push_cast; ring)
  linarith [this]

/-- Between congruent angles the shortest delta is zero. -/
theorem shortestSignedAngleDiff_of_congr (c t : ℚ)
    (h : mathMod c 360 = mathMod t 360) : shortestSignedAngleDiff c t = 0 := by
  unfold shortestSignedAngleDiff
  obtain ⟨k, hk⟩ := (mathMod_eq_iff_sub_int c t).mp h
  have : jsMod (t - c + 180) 360 = 180 := by
    refine jsMod_eq_of _ _ (-k) (by norm_num) (by norm_num) ?_
    push_cast
    linarith
  linarith [this]

theorem clampPitch_mem (x : ℚ) : -90 ≤ clampPitch x ∧ clampPitch x ≤ 90 := by
  unfold clampPitch
  constructor
  · exact le_max_left _ _
  · rcases le_total x 90 with h | h
    · rw [min_eq_right h]
      exact max_le (by norm_num) h
    · rw [min_eq_left h]
      norm_num

theorem clampPitch_of_mem (x : ℚ) (h0 : -90 ≤ x) (h1 : x ≤ 90) :
    clampPitch x = x := by
  unfold clampPitch
  rw [min_eq_right h1, max_eq_right h0]

theorem clampPitch_idem (x : ℚ) : clampPitch (clampPitch x) = clampPitch x := by
  have h := clampPitch_mem x
  exact clampPitch_of_mem _ h.1 h.2

/-- Concrete evaluation of `shortestSignedAngleDiff` through an explicit
multiple of 360. -/
theorem shortestSignedAngleDiff_eval (c t r : ℚ) (k : ℤ) (h0 : 0 ≤ r + 180)
    (h1 : r + 180 < 360) (h : t - c + 180 - (r + 180) = 360 * (k : ℚ)) :
    shortestSignedAngleDiff c t = r := by
  unfold shortestSignedAngleDiff
  rw [jsMod_eq_of (t - c + 180) (r + 180) k h0 h1 h]
  ring

theorem steps_nil (s : CubeState) : steps [] s = s := rfl

theorem steps_cons (o : Op) (ops : List Op) (s : CubeState) :
    steps (o :: ops) s = steps ops (step o s) := rfl

theorem animateTo_rotation (ty tx : ℚ) (s : CubeState) :
    (animateTo ty tx s).rotation =
      ⟨clampPitch tx,
       s.rotation.y + shortestSignedAngleDiff s.rotation.y ty⟩ := by
  unfold animateTo setCubeRotation
  cases s.cancelAnimationTimer <;>
    simp <;> rw [clampPitch_idem]

theorem animateTo_isAnimating (ty tx : ℚ) (s : CubeState) :
    (animateTo ty tx s).isAnimating = true := by
  unfold animateTo setCubeRotation
  cases s.cancelAnimationTimer <;> simp

theorem animateTo_initialRotation (ty tx : ℚ) (s : CubeState) :
    (animateTo ty tx s).initialRotation = s.initialRotation := by
  unfold animateTo setCubeRotation
  cases s.cancelAnimationTimer <;> simp

theorem animateTo_changeCalls (ty tx : ℚ) (s : CubeState) :
    (animateTo ty tx s).changeCalls =
      (animateTo ty tx s).rotation :: s.changeCalls := by
  rw [animateTo_rotation]
  unfold animateTo setCubeRotation
  cases s.cancelAnimationTimer <;>
    simp <;> rw [clampPitch_idem]

theorem animateTo_cancelAnimationTimer (ty tx : ℚ) (s : CubeState) :
    (animateTo ty tx s).cancelAnimationTimer = some s.nextTimerId := by
  unfold animateTo setCubeRotation
  cases s.cancelAnimationTimer <;> simp

theorem animateTo_pendingTimers (ty tx : ℚ) (s : CubeState) :
    (animateTo ty tx s).pendingTimers =
      (match s.cancelAnimationTimer with
       | some id => s.pendingTimers.erase id
       | none => s.pendingTimers) ++ [s.nextTimerId] := by
  unfold animateTo setCubeRotation
  cases s.cancelAnimationTimer <;> simp

theorem animateTo_isDragging (ty tx : ℚ) (s : CubeState) :
    (animateTo ty tx s).isDragging = s.isDragging := by
  unfold animateTo setCubeRotation
  cases s.cancelAnimationTimer <;> simp

theorem setRotationImp_eq (xDeg yDeg : ℚ) (s : CubeState) :
    setRotationImp xDeg yDeg s =
      animateTo (s.rotation.y + shortestSignedAngleDiff s.rotation.y yDeg)
        (clampPitch xDeg) s := rfl

/-- The committed rotation of `setRotation(xDeg, yDeg)`: pitch is the
clamped request, yaw moves by the shortest signed delta to the request. -/
theorem setRotationImp_rotation (xDeg yDeg : ℚ) (s : CubeState) :
    (setRotationImp xDeg yDeg s).rotation =
      ⟨clampPitch xDeg,
       s.rotation.y + shortestSignedAngleDiff s.rotation.y yDeg⟩ := by
  rw [setRotationImp_eq, animateTo_rotation, clampPitch_idem]
  have hb := shortestSignedAngleDiff_bounds s.rotation.y yDeg
  rw [shortestSignedAngleDiff_self_add _ _ hb.1 hb.2]

theorem handleFaceClick_rotation (f : Face) (s : CubeState) :
    (handleFaceClick f s).rotation =
      ⟨clampPitch (FACE_TARGETS f).x,
       s.rotation.y +
         shortestSignedAngleDiff s.rotation.y (FACE_TARGETS f).y⟩ := by
  unfold handleFaceClick
  rw [animateTo_rotation, clampPitch_idem]
  have hb := shortestSignedAngleDiff_bounds s.rotation.y (FACE_TARGETS f).y
  rw [shortestSignedAngleDiff_self_add _ _ hb.1 hb.2]

/-- An operation that commits a rotation leaves the pitch clamped. -/
theorem pitchOk_of_commit (o : Op) (s : CubeState)
    (h : commitsRotation o s) : pitchOk (step o s) := by
  cases o with
  | setRotationOp xDeg yDeg =>
    unfold pitchOk
    rw [show step (.setRotationOp xDeg yDeg) s = setRotationImp xDeg yDeg s
          from rfl,
        setRotationImp_rotation]
    exact clampPitch_mem xDeg
  | resetOp =>
    unfold pitchOk
    rw [show step .resetOp s = resetImp s from rfl]
    unfold resetImp
    rw [animateTo_rotation]
    exact clampPitch_mem _
  | faceClickOp f =>
    unfold pitchOk
    rw [show step (.faceClickOp f) s = handleFaceClick f s from rfl,
        handleFaceClick_rotation]
    exact clampPitch_mem _
  | mouseMoveOp cx cy =>
    unfold pitchOk
    rw [show step (.mouseMoveOp cx cy) s = handleGlobalMouseMove cx cy s
          from rfl]
    have h2 : s.isDragging = true ∧ s.dragButton = some 2 := h
    unfold handleGlobalMouseMove setCubeRotation
    rw [if_pos h2]
    exact clampPitch_mem _
  | touchMoveTwoOp x0 y0 x1 y1 =>
    unfold pitchOk
    rw [show step (.touchMoveTwoOp x0 y0 x1 y1) s =
          handleGlobalTouchMove x0 y0 x1 y1 s from rfl]
    have h2 : s.isDragging = true ∧ s.dragButton = some 2 := h
    unfold handleGlobalTouchMove setCubeRotation
    rw [if_pos h2]
    exact clampPitch_mem _
  | mouseDownOp b cx cy => exact h.elim
  | mouseUpOp => exact h.elim
  | touchStartTwoOp x0 y0 x1 y1 => exact h.elim
  | touchStartOtherOp => exact h.elim
  | touchEndOp => exact h.elim
  | timerFireOp id => exact h.elim
  | cornerClickOp f c => exact h.elim

/-- Every operation preserves a clamped pitch. -/
theorem pitchOk_preserved (o : Op) (s : CubeState) (h : pitchOk s) :
    pitchOk (step o s) := by
  cases o with
  | setRotationOp xDeg yDeg => exact pitchOk_of_commit _ _ trivial
  | resetOp => exact pitchOk_of_commit _ _ trivial
  | faceClickOp f => exact pitchOk_of_commit _ _ trivial
  | mouseMoveOp cx cy =>
    by_cases hc : s.isDragging = true ∧ s.dragButton = some 2
    · exact pitchOk_of_commit _ _ hc
    · unfold pitchOk
      rw [show step (.mouseMoveOp cx cy) s = handleGlobalMouseMove cx cy s
            from rfl]
      unfold handleGlobalMouseMove
      rw [if_neg hc]
      exact h
  | touchMoveTwoOp x0 y0 x1 y1 =>
    by_cases hc : s.isDragging = true ∧ s.dragButton = some 2
    · exact pitchOk_of_commit _ _ hc
    · unfold pitchOk
      rw [show step (.touchMoveTwoOp x0 y0 x1 y1) s =
            handleGlobalTouchMove x0 y0 x1 y1 s from rfl]
      unfold handleGlobalTouchMove
      rw [if_neg hc]
      exact h
  | mouseDownOp b cx cy =>
    unfold pitchOk at h ⊢
    show pitchOk (handleContainerMouseDown b cx cy s)
    unfold handleContainerMouseDown
    by_cases hb : b = 2
    · rw [if_pos hb]; exact h
    · rw [if_neg hb]; exact h
  | mouseUpOp => exact h
  | touchStartTwoOp x0 y0 x1 y1 => exact h
  | touchStartOtherOp => exact h
  | touchEndOp => exact h
  | timerFireOp id =>
    show pitchOk (timerFire id s)
    unfold timerFire
    by_cases hm : id ∈ s.pendingTimers
    · rw [if_pos hm]; exact h
    · rw [if_neg hm]; exact h
  | cornerClickOp f c => exact h

/-- Sequences of operations preserve a clamped pitch. -/
theorem pitchOk_steps (ops : List Op) (s : CubeState) (h : pitchOk s) :
    pitchOk (steps ops s) := by
  induction ops generalizing s with
  | nil => exact h
  | cons o rest ih => exact ih (step o s) (pitchOk_preserved o s h)

theorem timerInv_mkState (init : Rotation) : TimerInv (mkState init) := rfl

theorem timerInv_animateTo (ty tx : ℚ) (s : CubeState) (h : TimerInv s) :
    TimerInv (animateTo ty tx s) ∧
      (animateTo ty tx s).pendingTimers = [s.nextTimerId] := by
  have hp := animateTo_pendingTimers ty tx s
  have hc := animateTo_cancelAnimationTimer ty tx s
  unfold TimerInv at h ⊢
  rw [hp, hc, h]
  cases s.cancelAnimationTimer with
  | none => simp
  | some id => simp [List.erase_cons]

theorem timerInv_preserved (o : Op) (s : CubeState) (h : TimerInv s) :
    TimerInv (step o s) := by
  cases o with
  | setRotationOp xDeg yDeg => exact (timerInv_animateTo _ _ s h).1
  | resetOp => exact (timerInv_animateTo _ _ s h).1
  | faceClickOp f => exact (timerInv_animateTo _ _ s h).1
  | mouseMoveOp cx cy =>
    show TimerInv (handleGlobalMouseMove cx cy s)
    unfold TimerInv at h ⊢
    unfold handleGlobalMouseMove setCubeRotation
    split <;> simpa using h
  | touchMoveTwoOp x0 y0 x1 y1 =>
    show TimerInv (handleGlobalTouchMove x0 y0 x1 y1 s)
    unfold TimerInv at h ⊢
    unfold handleGlobalTouchMove setCubeRotation
    split <;> simpa using h
  | mouseDownOp b cx cy =>
    show TimerInv (handleContainerMouseDown b cx cy s)
    unfold TimerInv at h ⊢
    unfold handleContainerMouseDown
    split <;> simpa using h
  | mouseUpOp => exact h
  | touchStartTwoOp x0 y0 x1 y1 => exact h
  | touchStartOtherOp => exact h
  | touchEndOp => exact h
  | timerFireOp id =>
    show TimerInv (timerFire id s)
    unfold TimerInv at h ⊢
    unfold timerFire
    by_cases hm : id ∈ s.pendingTimers
    · rw [if_pos hm]
      rw [h] at hm
      cases hc : s.cancelAnimationTimer with
      | none => rw [hc] at hm; simp at hm
      | some j =>
        rw [hc] at hm
        have hj : id = j := by simpa using hm
        subst hj
        simp [h, hc, List.erase_cons]
    · rw [if_neg hm]; exact h
  | cornerClickOp f c => exact h

theorem timerFresh_mkState (init : Rotation) : TimerFresh (mkState init) := by
  intro id h
  simp [mkState] at h

/-- A drag-move event never changes the animating flag. -/
theorem isAnimating_dragMove (o : Op) (s : CubeState) (h : isDragMoveOp o) :
    (step o s).isAnimating = s.isAnimating := by
  cases o with
  | mouseMoveOp cx cy =>
    show (handleGlobalMouseMove cx cy s).isAnimating = s.isAnimating
    unfold handleGlobalMouseMove setCubeRotation
    split <;> simp
  | touchMoveTwoOp x0 y0 x1 y1 =>
    show (handleGlobalTouchMove x0 y0 x1 y1 s).isAnimating = s.isAnimating
    unfold handleGlobalTouchMove setCubeRotation
    split <;> simp
  | setRotationOp xDeg yDeg => exact h.elim
  | resetOp => exact h.elim
  | faceClickOp f => exact h.elim
  | mouseDownOp b cx cy => exact h.elim
  | mouseUpOp => exact h.elim
  | touchStartTwoOp x0 y0 x1 y1 => exact h.elim
  | touchStartOtherOp => exact h.elim
  | touchEndOp => exact h.elim
  | timerFireOp id => exact h.elim
  | cornerClickOp f c => exact h.elim

/-- C1 counterexample: the claim puts `shortestSignedAngleDiff` in the
half-open interval `(-180, 180]` with ties at 180 resolving to `+180`;
but at `current = 0`, `target = 180` the code returns `-180`, which is
not in `(-180, 180]`. -/
theorem C1_counterexample :
    shortestSignedAngleDiff 0 180 = -180 ∧
    ¬ (-180 < shortestSignedAngleDiff 0 180 ∧
       shortestSignedAngleDiff 0 180 ≤ 180) := by
  have h : shortestSignedAngleDiff 0 180 = -180 := by
    have := shortestSignedAngleDiff_antipodal 0
    rw [show ((0 : ℚ) + 180) = 180 by norm_num] at this
    exact this
  refine ⟨h, ?_⟩
  rw [h]
  intro hc
  exact absurd hc.1 (by norm_num)

/-- C1 (amended): for every pair of rational angles, the shortest signed
delta lies in the half-open interval `[-180, 180)`, satisfies
`|delta| ≤ 180`, applying it lands on an angle congruent to the target
under the mathematical always-non-negative modulo, and ties at exactly
180 resolve to `-180`, never `+180`. -/
theorem C1_shortest_delta (c t : ℚ) :
    (-180 ≤ shortestSignedAngleDiff c t ∧ shortestSignedAngleDiff c t < 180) ∧
    |shortestSignedAngleDiff c t| ≤ 180 ∧
    mathMod (c + shortestSignedAngleDiff c t) 360 = mathMod t 360 ∧
    shortestSignedAngleDiff c (c + 180) = -180 :=
  ⟨shortestSignedAngleDiff_bounds c t,
   abs_shortestSignedAngleDiff_le c t,
   shortestSignedAngleDiff_congr c t,
   shortestSignedAngleDiff_antipodal c⟩

/-- C2: for every sequence of drag-move and animated-transition
operations applied to a controller whose state was produced by such an
operation (one that committed a rotation), the committed pitch always
lies in `[-90, 90]`. -/
theorem C2_pitch_invariant (s : CubeState) (o : Op)
    (h : commitsRotation o s) (ops : List Op) :
    pitchOk (steps ops (step o s)) :=
  pitchOk_steps ops (step o s) (pitchOk_of_commit o s h)

/-- C2 witness: a reset from the default pose commits and leaves the
pitch in range. -/
theorem C2_pitch_invariant_witness :
    commitsRotation .resetOp (mkState ⟨-20, -30⟩) ∧
    pitchOk (steps [] (step .resetOp (mkState ⟨-20, -30⟩))) :=
  ⟨trivial, C2_pitch_invariant (mkState ⟨-20, -30⟩) .resetOp trivial []⟩

/-- C3: `setRotation(pitch, yaw)` never rejects: for every state and
every rational pitch and yaw request, afterwards the committed pitch is
the clamped request, the committed yaw is the previous yaw plus the
shortest signed delta to the request (hence congruent to the request mod
360 and changed by at most 180 in absolute value), the transition is
animated, the change notification fires with exactly the new value; and
from `{x: -20, y: -30}`, `setRotation(0, -90)` commits `{x: 0, y: -90}`. -/
theorem C3_setRotation_total (s : CubeState) (xDeg yDeg : ℚ) :
    (step (.setRotationOp xDeg yDeg) s).rotation.x = clampPitch xDeg ∧
    (step (.setRotationOp xDeg yDeg) s).rotation.y =
      s.rotation.y + shortestSignedAngleDiff s.rotation.y yDeg ∧
    mathMod (step (.setRotationOp xDeg yDeg) s).rotation.y 360 =
      mathMod yDeg 360 ∧
    |(step (.setRotationOp xDeg yDeg) s).rotation.y - s.rotation.y| ≤ 180 ∧
    (step (.setRotationOp xDeg yDeg) s).isAnimating = true ∧
    (step (.setRotationOp xDeg yDeg) s).changeCalls =
      (step (.setRotationOp xDeg yDeg) s).rotation :: s.changeCalls ∧
    (step (.setRotationOp 0 (-90)) (mkState ⟨-20, -30⟩)).rotation =
      ⟨0, -90⟩ := by
  have hs : step (.setRotationOp xDeg yDeg) s = setRotationImp xDeg yDeg s :=
    rfl
  have hrot := setRotationImp_rotation xDeg yDeg s
  refine ⟨?_, ?_, ?_, ?_, ?_, ?_, ?_⟩
  · rw [hs, hrot]
  · rw [hs, hrot]
  · rw [hs, hrot]
    exact shortestSignedAngleDiff_congr s.rotation.y yDeg
  · rw [hs, hrot]
    have : s.rotation.y + shortestSignedAngleDiff s.rotation.y yDeg -
        s.rotation.y = shortestSignedAngleDiff s.rotation.y yDeg := by ring
    rw [this]
    exact abs_shortestSignedAngleDiff_le s.rotation.y yDeg
  · rw [hs, setRotationImp_eq]
    exact animateTo_isAnimating _ _ s
  · rw [hs, setRotationImp_eq]
    exact animateTo_changeCalls _ _ s
  · have hd : shortestSignedAngleDiff (-30) (-90) = -60 :=
      shortestSignedAngleDiff_eval (-30) (-90) (-60) 0 (by norm_num)
        (by norm_num) (by norm_num)
    have := setRotationImp_rotation 0 (-90) (mkState ⟨-20, -30⟩)
    rw [show step (.setRotationOp 0 (-90)) (mkState ⟨-20, -30⟩) =
          setRotationImp 0 (-90) (mkState ⟨-20, -30⟩) from rfl, this]
    rw [show (mkState ⟨-20, -30⟩).rotation = ⟨-20, -30⟩ from rfl]
    rw [show ((⟨-20, -30⟩ : Rotation)).y = -30 from rfl, hd]
    rw [clampPitch_of_mem 0 (by norm_num) (by norm_num)]
    norm_num

/-- C4 counterexample: after a drag that adds a full turn of yaw,
`reset()` leaves the yaw at 330, not at the construction-time -30 — the
pose after reset is congruent to the initial pose mod 360 but not equal
to it. -/
theorem C4_counterexample :
    (steps [.mouseDownOp 2 0 0, .mouseMoveOp 720 0, .resetOp]
        (mkState ⟨-20, -30⟩)).rotation = ⟨-20, 330⟩ ∧
    (⟨-20, 330⟩ : Rotation) ≠ (⟨-20, -30⟩ : Rotation) := by
  constructor
  · show (resetImp (handleGlobalMouseMove 720 0
        (handleContainerMouseDown 2 0 0 (mkState ⟨-20, -30⟩)))).rotation =
      ⟨-20, 330⟩
    have h1 : handleContainerMouseDown 2 0 0 (mkState ⟨-20, -30⟩) =
        ⟨⟨-20, -30⟩, ⟨-20, -30⟩, true, some 2, (0, 0), false, none, [], 0,
         [], []⟩ := by
      simp [handleContainerMouseDown, mkState]
    rw [h1]
    have h2 : handleGlobalMouseMove 720 0
        (⟨⟨-20, -30⟩, ⟨-20, -30⟩, true, some 2, (0, 0), false, none, [], 0,
          [], []⟩ : CubeState) =
        ⟨⟨-20, 330⟩, ⟨-20, -30⟩, true, some 2, (720, 0), false, none, [], 0,
         [⟨-20, 330⟩], []⟩ := by
      unfold handleGlobalMouseMove setCubeRotation
      rw [if_pos ⟨rfl, rfl⟩]
      have ha : clampPitch (-20 : ℚ) = -20 :=
        clampPitch_of_mem _ (by norm_num) (by norm_num)
      norm_num [ha]
    rw [h2]
    unfold resetImp
    rw [animateTo_rotation]
    have hd : shortestSignedAngleDiff 330 (-30) = 0 :=
      shortestSignedAngleDiff_eval 330 (-30) 0 (-1) (by norm_num)
        (by norm_num) (by norm_num)
    have ha : clampPitch (-20 : ℚ) = -20 :=
      clampPitch_of_mem _ (by norm_num) (by norm_num)
    norm_num [hd, ha]
  · intro h
    have := congrArg Rotation.y h
    simp at this
    exact absurd this (by norm_num)

/-- C4 (amended): calling `reset()` twice in a row yields the same final
pose as calling it once; that pose has pitch equal to the clamped
construction-time initial pitch and yaw congruent mod 360 to the
construction-time initial yaw — but it need not equal the initial pose
exactly (the yaw keeps its accumulated winding, and an out-of-range
initial pitch is clamped). -/
theorem C4_reset_idempotent (s : CubeState) :
    (step .resetOp (step .resetOp s)).rotation = (step .resetOp s).rotation ∧
    (step .resetOp s).rotation.x = clampPitch s.initialRotation.x ∧
    mathMod (step .resetOp s).rotation.y 360 =
      mathMod s.initialRotation.y 360 := by
  have h1 : step .resetOp s = resetImp s := rfl
  have hrot : (resetImp s).rotation =
      ⟨clampPitch s.initialRotation.x,
       s.rotation.y +
         shortestSignedAngleDiff s.rotation.y s.initialRotation.y⟩ := by
    unfold resetImp
    exact animateTo_rotation _ _ s
  have hinit : (resetImp s).initialRotation = s.initialRotation := by
    unfold resetImp
    exact animateTo_initialRotation _ _ s
  have hcongr : mathMod (resetImp s).rotation.y 360 =
      mathMod s.initialRotation.y 360 := by
    rw [hrot]
    exact shortestSignedAngleDiff_congr s.rotation.y s.initialRotation.y
  refine ⟨?_, ?_, ?_⟩
  · rw [h1]
    have hrot2 : (resetImp (resetImp s)).rotation =
        ⟨clampPitch (resetImp s).initialRotation.x,
         (resetImp s).rotation.y +
           shortestSignedAngleDiff (resetImp s).rotation.y
             (resetImp s).initialRotation.y⟩ := by
      unfold resetImp
      exact animateTo_rotation _ _ _
    rw [show step .resetOp (resetImp s) = resetImp (resetImp s) from rfl]
    rw [hrot2, hinit]
    have hz : shortestSignedAngleDiff (resetImp s).rotation.y
        s.initialRotation.y = 0 := by
      refine shortestSignedAngleDiff_of_congr _ _ ?_
      rw [hcongr]
    rw [hz, hrot]
    norm_num
  · rw [h1, hrot]
  · rw [h1]
    exact hcongr

/-- C5 counterexample: the claim says clicking "Front" from yaw 170 moves
the yaw to 180; but Front's target yaw in `FACE_TARGETS` is 0, so the
code moves the yaw to 0 (delta -170), not 180. -/
theorem C5_counterexample :
    (step (.faceClickOp .Front) (mkState ⟨0, 170⟩)).rotation.y = 0 ∧
    (0 : ℚ) ≠ 180 := by
  constructor
  · rw [show step (.faceClickOp .Front) (mkState ⟨0, 170⟩) =
        handleFaceClick .Front (mkState ⟨0, 170⟩) from rfl,
        handleFaceClick_rotation]
    have hd : shortestSignedAngleDiff 170 (FACE_TARGETS .Front).y = -170 := by
      rw [show (FACE_TARGETS .Front).y = -0 from rfl]
      exact shortestSignedAngleDiff_eval 170 (-0) (-170) 0 (by norm_num)
        (by norm_num) (by norm_num)
    rw [show (mkState ⟨0, 170⟩).rotation = ⟨0, 170⟩ from rfl]
    rw [show ((⟨0, 170⟩ : Rotation)).y = 170 from rfl, hd]
    norm_num
  · norm_num

/-- C5 (amended): clicking "Top" from any state animates the pitch to
-90 and the yaw by the shortest route (at most 180 degrees of change) to
an angle congruent to 0 mod 360; clicking "Front" from yaw 170 moves the
yaw to 0 (delta -170, the shortest route, not the long way around);
clicking "Back" from yaw 170 (target yaw -180 ≡ 180) yields final yaw
exactly 180, not -190. -/
theorem C5_face_click (s : CubeState) :
    (step (.faceClickOp .Top) s).rotation.x = -90 ∧
    mathMod (step (.faceClickOp .Top) s).rotation.y 360 = 0 ∧
    |(step (.faceClickOp .Top) s).rotation.y - s.rotation.y| ≤ 180 ∧
    (step (.faceClickOp .Front) (mkState ⟨0, 170⟩)).rotation.y = 0 ∧
    (step (.faceClickOp .Back) (mkState ⟨0, 170⟩)).rotation.y = 180 := by
  have htop : step (.faceClickOp .Top) s = handleFaceClick .Top s := rfl
  have hrot := handleFaceClick_rotation .Top s
  refine ⟨?_, ?_, ?_, ?_, ?_⟩
  · rw [htop, hrot]
    rw [show (FACE_TARGETS .Top).x = -90 from rfl]
    exact clampPitch_of_mem _ (by norm_num) (by norm_num)
  · rw [htop, hrot]
    rw [show (FACE_TARGETS .Top).y = 0 from rfl]
    have := shortestSignedAngleDiff_congr s.rotation.y 0
    rw [this]
    exact mathMod_eq_of 0 0 0 (by norm_num) (by norm_num) (by norm_num)
  · rw [htop, hrot]
    have : s.rotation.y +
        shortestSignedAngleDiff s.rotation.y (FACE_TARGETS .Top).y -
        s.rotation.y =
        shortestSignedAngleDiff s.rotation.y (FACE_TARGETS .Top).y := by
      ring
    rw [this]
    exact abs_shortestSignedAngleDiff_le _ _
  · rw [show step (.faceClickOp .Front) (mkState ⟨0, 170⟩) =
        handleFaceClick .Front (mkState ⟨0, 170⟩) from rfl,
        handleFaceClick_rotation]
    have hd : shortestSignedAngleDiff 170 (FACE_TARGETS .Front).y = -170 := by
      rw [show (FACE_TARGETS .Front).y = -0 from rfl]
      exact shortestSignedAngleDiff_eval 170 (-0) (-170) 0 (by norm_num)
        (by norm_num) (by norm_num)
    rw [show (mkState ⟨0, 170⟩).rotation = ⟨0, 170⟩ from rfl]
    rw [show ((⟨0, 170⟩ : Rotation)).y = 170 from rfl, hd]
    norm_num
  · rw [show step (.faceClickOp .Back) (mkState ⟨0, 170⟩) =
        handleFaceClick .Back (mkState ⟨0, 170⟩) from rfl,
        handleFaceClick_rotation]
    have hd : shortestSignedAngleDiff 170 (FACE_TARGETS .Back).y = 10 := by
      rw [show (FACE_TARGETS .Back).y = -180 from rfl]
      exact shortestSignedAngleDiff_eval 170 (-180) 10 (-1) (by norm_num)
        (by norm_num) (by norm_num)
    rw [show (mkState ⟨0, 170⟩).rotation = ⟨0, 170⟩ from rfl]
    rw [show ((⟨0, 170⟩ : Rotation)).y = 170 from rfl, hd]
    norm_num

theorem option_toList_length_le (o : Option ℕ) : o.toList.length ≤ 1 := by
  cases o <;> simp

/-- C6: with the timer invariants in force, every operation leaves at
most one pending completion timer; `animateTo` cancels the prior pending
timer (its id is gone) and arms exactly one new one; and when the
pending timer fires it clears the animating flag, empties the timer
handle, leaves no pending timer, and firing it again is a no-op (the
flag is cleared once, not twice). -/
theorem C6_timer_exclusive (s : CubeState) (h1 : TimerInv s)
    (h2 : TimerFresh s) :
    (∀ o : Op, (step o s).pendingTimers.length ≤ 1) ∧
    (∀ ty tx : ℚ,
      (animateTo ty tx s).pendingTimers = [s.nextTimerId] ∧
      ∀ id, s.cancelAnimationTimer = some id →
        id ∉ (animateTo ty tx s).pendingTimers) ∧
    (∀ id, s.cancelAnimationTimer = some id →
      (step (.timerFireOp id) s).isAnimating = false ∧
      (step (.timerFireOp id) s).cancelAnimationTimer = none ∧
      (step (.timerFireOp id) s).pendingTimers = [] ∧
      step (.timerFireOp id) (step (.timerFireOp id) s) =
        step (.timerFireOp id) s) := by
  refine ⟨?_, ?_, ?_⟩
  · intro o
    have := timerInv_preserved o s h1
    unfold TimerInv at this
    rw [this]
    exact option_toList_length_le _
  · intro ty tx
    have hp := (timerInv_animateTo ty tx s h1).2
    refine ⟨hp, ?_⟩
    intro id hid
    rw [hp]
    have hlt := h2 id hid
    simp only [List.mem_singleton]
    omega
  · intro id hid
    have hpend : s.pendingTimers = [id] := by
      unfold TimerInv at h1
      rw [h1, hid]
      rfl
    have hmem : id ∈ s.pendingTimers := by rw [hpend]; exact List.mem_singleton.mpr rfl
    have hstep : step (.timerFireOp id) s = timerFire id s := rfl
    have hfire : timerFire id s =
        { s with pendingTimers := s.pendingTimers.erase id,
                 isAnimating := false, cancelAnimationTimer := none } := by
      unfold timerFire
      rw [if_pos hmem]
    have herase : s.pendingTimers.erase id = [] := by
      rw [hpend]
      simp [List.erase_cons]
    refine ⟨?_, ?_, ?_, ?_⟩
    · rw [hstep, hfire]
    · rw [hstep, hfire]
    · rw [hstep, hfire]
      exact herase
    · rw [hstep, hfire]
      have hstep2 : ∀ u : CubeState, step (.timerFireOp id) u = timerFire id u :=
        fun u => rfl
      rw [hstep2]
      unfold timerFire
      rw [if_neg ?hne]
      case hne => simp [herase]

/-- C6 witness: from the freshly constructed controller, an animated
transition leaves exactly the one just-armed pending timer. -/
theorem C6_timer_exclusive_witness :
    (animateTo 0 0 (mkState ⟨-20, -30⟩)).pendingTimers =
      [(mkState ⟨-20, -30⟩).nextTimerId] :=
  ((C6_timer_exclusive (mkState ⟨-20, -30⟩) (timerInv_mkState _)
      (timerFresh_mkState _)).2.1 0 0).1

theorem isAnimating_dragMoves (ops : List Op) (s : CubeState)
    (h : ∀ o ∈ ops, isDragMoveOp o) :
    (steps ops s).isAnimating = s.isAnimating := by
  induction ops generalizing s with
  | nil => rfl
  | cons o rest ih =>
    rw [steps_cons, ih _ (fun o ho => h o (List.mem_cons_of_mem _ ho)),
        isAnimating_dragMove o s (h o (List.mem_cons_self _ _))]

/-- C7: starting a secondary-button drag or a two-finger drag
immediately sets the animating flag false, and after any further
sequence of drag-move events the flag is still false — every
intermediate drag update is applied non-animated. -/
theorem C7_drag_non_animated (s : CubeState) (cx cy x0 y0 x1 y1 : ℚ)
    (ops : List Op) (h : ∀ o ∈ ops, isDragMoveOp o) :
    (step (.mouseDownOp 2 cx cy) s).isAnimating = false ∧
    (step (.touchStartTwoOp x0 y0 x1 y1) s).isAnimating = false ∧
    (steps ops (step (.mouseDownOp 2 cx cy) s)).isAnimating = false ∧
    (steps ops (step (.touchStartTwoOp x0 y0 x1 y1) s)).isAnimating =
      false := by
  have hm : (step (.mouseDownOp 2 cx cy) s).isAnimating = false := by
    show (handleContainerMouseDown 2 cx cy s).isAnimating = false
    unfold handleContainerMouseDown
    rw [if_pos rfl]
  have ht : (step (.touchStartTwoOp x0 y0 x1 y1) s).isAnimating = false :=
    rfl
  exact ⟨hm, ht, by rw [isAnimating_dragMoves ops _ h, hm],
         by rw [isAnimating_dragMoves ops _ h, ht]⟩

/-- C7 witness: a concrete secondary-button drag with one move event
keeps the animating flag false. -/
theorem C7_drag_non_animated_witness :
    (steps [.mouseMoveOp 5 7] (step (.mouseDownOp 2 0 0)
        (mkState ⟨-20, -30⟩))).isAnimating = false :=
  (C7_drag_non_animated (mkState ⟨-20, -30⟩) 0 0 1 2 3 4 [.mouseMoveOp 5 7]
      (by
        intro o ho
        simp only [List.mem_singleton] at ho
        rw [ho]
        trivial)).2.2.1

/-- C8: the pointer drag-move handler and the two-finger drag-move
handler compute identical updates: a two-finger move whose contact
midpoint is the pointer position produces exactly the same state, and
when a drag is active both set
`pitch = clampPitch (pitch - deltaY * 0.5)`,
`yaw = yaw + deltaX * 0.5`, and record the new position as the last
position. -/
theorem C8_pointer_touch_refine (s : CubeState) (x0 y0 x1 y1 cx cy : ℚ)
    (hx : (x0 + x1) / 2 = cx) (hy : (y0 + y1) / 2 = cy) :
    step (.touchMoveTwoOp x0 y0 x1 y1) s = step (.mouseMoveOp cx cy) s ∧
    (s.isDragging = true ∧ s.dragButton = some 2 →
      (step (.mouseMoveOp cx cy) s).rotation =
        ⟨clampPitch (s.rotation.x - (cy - s.lastPos.2) * 0.5),
         s.rotation.y + (cx - s.lastPos.1) * 0.5⟩ ∧
      (step (.mouseMoveOp cx cy) s).lastPos = (cx, cy) ∧
      (step (.touchMoveTwoOp x0 y0 x1 y1) s).lastPos = (cx, cy)) := by
  subst hx
  subst hy
  have heq : step (.touchMoveTwoOp x0 y0 x1 y1) s =
      step (.mouseMoveOp ((x0 + x1) / 2) ((y0 + y1) / 2)) s := rfl
  refine ⟨heq, ?_⟩
  intro hdrag
  have hmove : step (.mouseMoveOp ((x0 + x1) / 2) ((y0 + y1) / 2)) s =
      handleGlobalMouseMove ((x0 + x1) / 2) ((y0 + y1) / 2) s := rfl
  rw [heq, hmove]
  unfold handleGlobalMouseMove setCubeRotation
  rw [if_pos hdrag]
  exact ⟨rfl, rfl, rfl⟩

/-- C8 witness: concrete two-finger move with midpoint (2, 3) agrees
with the pointer move to (2, 3). -/
theorem C8_pointer_touch_refine_witness :
    step (.touchMoveTwoOp 1 2 3 4) (mkState ⟨-20, -30⟩) =
      step (.mouseMoveOp 2 3) (mkState ⟨-20, -30⟩) :=
  (C8_pointer_touch_refine (mkState ⟨-20, -30⟩) 1 2 3 4 2 3 (by norm_num)
      (by norm_num)).1

/-- C9: clicking a corner pick region only reports the corner's
identifier to the observer callback: the dispatched handler is the
corner handler alone (propagation is stopped, so the enclosing face's
click transition never runs), and rotation, animating flag, timer
handle, pending timers and change-notification history are unchanged. -/
theorem C9_corner_click (f : Face) (c : String) (s : CubeState) :
    step (.cornerClickOp f c) s = cornerClickHandler c s ∧
    (step (.cornerClickOp f c) s).rotation = s.rotation ∧
    (step (.cornerClickOp f c) s).isAnimating = s.isAnimating ∧
    (step (.cornerClickOp f c) s).cancelAnimationTimer =
      s.cancelAnimationTimer ∧
    (step (.cornerClickOp f c) s).pendingTimers = s.pendingTimers ∧
    (step (.cornerClickOp f c) s).changeCalls = s.changeCalls ∧
    (step (.cornerClickOp f c) s).cornerCalls = c :: s.cornerCalls :=
  ⟨rfl, rfl, rfl, rfl, rfl, rfl, rfl⟩

/-- C10: construction stores the caller-supplied initial pose as-is —
`getRotation` returns it unchanged even when the pitch is out of range
(for example `{x: -120, y: 500}`), and `clampPitch` is applied only by
the rotation-committing operations (an animated `setRotation` or a drag
move), which do leave the pitch in `[-90, 90]`. -/
theorem C10_construction_unnormalized (init : Rotation) (xDeg yDeg : ℚ) :
    getRotation (mkState init) = init ∧
    getRotation (mkState ⟨-120, 500⟩) = ⟨-120, 500⟩ ∧
    ¬ pitchOk (mkState ⟨-120, 500⟩) ∧
    pitchOk (step (.setRotationOp xDeg yDeg) (mkState init)) ∧
    pitchOk (step (.mouseMoveOp xDeg yDeg)
      (step (.mouseDownOp 2 0 0) (mkState init))) := by
  refine ⟨rfl, rfl, ?_, ?_, ?_⟩
  · intro h
    have hx : (mkState (⟨-120, 500⟩ : Rotation)).rotation.x = -120 := rfl
    rw [pitchOk, hx] at h
    exact absurd h.1 (by norm_num)
  · exact pitchOk_of_commit (.setRotationOp xDeg yDeg) _ trivial
  · refine pitchOk_of_commit (.mouseMoveOp xDeg yDeg) _ ?_
    show (handleContainerMouseDown 2 0 0 (mkState init)).isDragging = true ∧
      (handleContainerMouseDown 2 0 0 (mkState init)).dragButton = some 2
    unfold handleContainerMouseDown
    rw [if_pos rfl]
    exact ⟨rfl, rfl⟩

/-- The fresh-id invariant is preserved by every operation, so the
hypotheses of the timer-exclusivity theorem hold in all reachable
states. -/
theorem timerFresh_preserved (o : Op) (s : CubeState) (h : TimerFresh s) :
    TimerFresh (step o s) := by
  have hanim : ∀ ty tx : ℚ, TimerFresh (animateTo ty tx s) := by
    intro ty tx id hid
    rw [animateTo_cancelAnimationTimer] at hid
    have heq : s.nextTimerId = id := Option.some.inj hid
    have hn : (animateTo ty tx s).nextTimerId = s.nextTimerId + 1 := by
      unfold animateTo setCubeRotation
      cases s.cancelAnimationTimer <;> simp
    rw [hn]
    omega
  cases o with
  | setRotationOp xDeg yDeg => exact hanim _ _
  | resetOp => exact hanim _ _
  | faceClickOp f => exact hanim _ _
  | mouseMoveOp cx cy =>
    intro id hid
    show id < (handleGlobalMouseMove cx cy s).nextTimerId
    have : (handleGlobalMouseMove cx cy s).cancelAnimationTimer =
        s.cancelAnimationTimer ∧
        (handleGlobalMouseMove cx cy s).nextTimerId = s.nextTimerId := by
      unfold handleGlobalMouseMove setCubeRotation
      split <;> simp
    rw [this.2]
    rw [show (step (.mouseMoveOp cx cy) s) = handleGlobalMouseMove cx cy s
          from rfl, this.1] at hid
    exact h id hid
  | touchMoveTwoOp x0 y0 x1 y1 =>
    intro id hid
    show id < (handleGlobalTouchMove x0 y0 x1 y1 s).nextTimerId
    have : (handleGlobalTouchMove x0 y0 x1 y1 s).cancelAnimationTimer =
        s.cancelAnimationTimer ∧
        (handleGlobalTouchMove x0 y0 x1 y1 s).nextTimerId = s.nextTimerId := by
      unfold handleGlobalTouchMove setCubeRotation
      split <;> simp
    rw [this.2]
    rw [show (step (.touchMoveTwoOp x0 y0 x1 y1) s) =
          handleGlobalTouchMove x0 y0 x1 y1 s from rfl, this.1] at hid
    exact h id hid
  | mouseDownOp b cx cy =>
    intro id hid
    show id < (handleContainerMouseDown b cx cy s).nextTimerId
    have : (handleContainerMouseDown b cx cy s).cancelAnimationTimer =
        s.cancelAnimationTimer ∧
        (handleContainerMouseDown b cx cy s).nextTimerId = s.nextTimerId := by
      unfold handleContainerMouseDown
      split <;> simp
    rw [this.2]
    rw [show (step (.mouseDownOp b cx cy) s) =
          handleContainerMouseDown b cx cy s from rfl, this.1] at hid
    exact h id hid
  | mouseUpOp => exact fun id hid => h id hid
  | touchStartTwoOp x0 y0 x1 y1 => exact fun id hid => h id hid
  | touchStartOtherOp => exact fun id hid => h id hid
  | touchEndOp => exact fun id hid => h id hid
  | timerFireOp tid =>
    intro id hid
    show id < (timerFire tid s).nextTimerId
    by_cases hm : tid ∈ s.pendingTimers
    · rw [show step (.timerFireOp tid) s = timerFire tid s from rfl] at hid
      unfold timerFire at hid
      rw [if_pos hm] at hid
      simp at hid
    · rw [show step (.timerFireOp tid) s = timerFire tid s from rfl] at hid
      unfold timerFire at hid ⊢
      rw [if_neg hm] at hid ⊢
      exact h id hid
  | cornerClickOp f c => exact fun id hid => h id hid

end ViewCube
